import Mathlib

/-!
Verification of `bert4keras/optimizers.py` against its specification.

The numeric runtime is modelled over `ℚ`; the runtime's `sqrt` primitive and
the regex engine (`re.search`) are external collaborators and appear as
explicit function parameters.  Parameters are modelled as scalars except for
the sparse (indexed) update, which uses vectors `Fin n → ℚ`.

The global write primitive `K.update` is modelled as an explicit "hook"
argument threaded through each operation; replacing `K.update` in the
source corresponds to passing a wrapped hook.  In the source, `K.update`
returns the committed value, which is then used by downstream computation;
the model preserves this.
-/

/-- The signature of the `K.update(x, new_x)` write primitive: it receives
the written variable's name, the variable's current value and the proposed
new value, and returns the value actually committed (which in the source is
also the value flowing to downstream consumers of the op). -/
abbrev Hook : Type := String → ℚ → ℚ → ℚ

/-- The default backend `K.update`: commits the proposed value unchanged. -/
def kUpdate : Hook := fun _ _ newx => newx

/-- Hyperparameters of the `Adam` base optimizer
(`learning_rate`, `beta_1`, `beta_2`, `epsilon`). -/
structure AdamHP where
  lr : ℚ
  beta1 : ℚ
  beta2 : ℚ
  eps : ℚ

/-- Per-parameter state of the base optimizer: the two moment slots `m`, `v`
and the parameter value `p` itself. -/
structure AdamState where
  m : ℚ
  v : ℚ
  p : ℚ
deriving DecidableEq

/-- The names under which the three variables are registered; the write hook
receives these (the source hooks test `x.name in self.param_names`). -/
structure VarNames where
  mName : String
  vName : String
  pName : String

/-- Dense branch of `Adam._resource_apply_op` (optimizers.py lines 33-61,
`indices is None`).  `t` is the value of `self.iterations` during the step;
the power terms `beta_1_t_power`, `beta_2_t_power` are computed from
`local_step = t + 1` exactly as in the source and, as in the source, are
never used in the update.  Every write goes through the hook `ku`
(`K.update`), and the committed `m_t`, `v_t` feed the parameter update. -/
def applyDense (sqrt : ℚ → ℚ) (hp : AdamHP) (t : ℕ) (ku : Hook)
    (names : VarNames) (s : AdamState) (grad : ℚ) : AdamState :=
  let lr_t := hp.lr
  let beta_1_t := hp.beta1
  let beta_2_t := hp.beta2
  let local_step : ℕ := t + 1
  let _beta_1_t_power := beta_1_t ^ local_step
  let _beta_2_t_power := beta_2_t ^ local_step
  let m_t := ku names.mName s.m (beta_1_t * s.m + (1 - beta_1_t) * grad)
  let v_t := ku names.vName s.v (beta_2_t * s.v + (1 - beta_2_t) * grad ^ 2)
  let var_t := s.p - lr_t * m_t / (sqrt v_t + hp.eps)
  ⟨m_t, v_t, ku names.pName s.p var_t⟩

/-- Modelled from the spec: the textbook bias-corrected Adam parameter
update that §4.1 says this implementation omits — the moments are divided
by `(1 - beta_1^t)` and `(1 - beta_2^t)` before use.  Used only to witness
that `applyDense` does not apply this correction. -/
def adamBiasCorrectedP (sqrt : ℚ → ℚ) (hp : AdamHP) (t : ℕ)
    (m v p grad : ℚ) : ℚ :=
  let m1 := hp.beta1 * m + (1 - hp.beta1) * grad
  let v1 := hp.beta2 * v + (1 - hp.beta2) * grad ^ 2
  let mhat := m1 / (1 - hp.beta1 ^ (t + 1))
  let vhat := v1 / (1 - hp.beta2 ^ (t + 1))
  p - hp.lr * mhat / (sqrt vhat + hp.eps)

/-- Concrete variable names for evaluation. -/
def names0 : VarNames := ⟨"adam/m", "adam/v", "w"⟩

/-- `self._resource_scatter_add(x, indices, updates)`: adds each update into
the named row of the tensor; duplicate indices accumulate additively.  A
tensor of `n` scalar rows is `Fin n → ℚ`; the indexed gradient is a list of
(row, value) pairs. -/
def scatterAdd {n : ℕ} (x : Fin n → ℚ) (updates : List (Fin n × ℚ)) :
    Fin n → ℚ :=
  updates.foldl (fun acc iu => Function.update acc iu.1 (acc iu.1 + iu.2)) x

/-- Vector-valued per-parameter state for the sparse case. -/
structure AdamVecState (n : ℕ) where
  m : Fin n → ℚ
  v : Fin n → ℚ
  p : Fin n → ℚ

/-- Sparse branch of `Adam._resource_apply_op` (optimizers.py lines 33-61,
`indices` given, reached via `_resource_apply_sparse`): the whole `m` and
`v` tensors are first decayed (`K.update(m, beta_1*m)`, `K.update(v,
beta_2*v)`), then `(1-beta_1)*grad` and `(1-beta_2)*grad^2` are
scatter-added at the indices, and the parameter update is computed and
committed over the whole tensor from the updated `m_t`, `v_t`.  Writes go
through the default `K.update` (scatter-add is a separate primitive, not
hook-mediated). -/
def applySparse (sqrt : ℚ → ℚ) (hp : AdamHP) (t : ℕ) {n : ℕ}
    (s : AdamVecState n) (grad : List (Fin n × ℚ)) : AdamVecState n :=
  let lr_t := hp.lr
  let beta_1_t := hp.beta1
  let beta_2_t := hp.beta2
  let local_step : ℕ := t + 1
  let _beta_1_t_power := beta_1_t ^ local_step
  let _beta_2_t_power := beta_2_t ^ local_step
  let m1 := fun j => beta_1_t * s.m j
  let v1 := fun j => beta_2_t * s.v j
  let m_t := scatterAdd m1 (grad.map (fun ig => (ig.1, (1 - beta_1_t) * ig.2)))
  let v_t := scatterAdd v1 (grad.map (fun ig => (ig.1, (1 - beta_2_t) * ig.2 ^ 2)))
  let var_t := fun j => s.p j - lr_t * m_t j / (sqrt (v_t j) + hp.eps)
  ⟨m_t, v_t, var_t⟩

lemma scatterAdd_apply {n : ℕ} (us : List (Fin n × ℚ)) (x : Fin n → ℚ)
    (j : Fin n) :
    scatterAdd x us j =
      x j + ((us.filter (fun u => u.1 == j)).map Prod.snd).sum := by
  induction us generalizing x with
  | nil => simp [scatterAdd]
  | cons u us ih =>
    rw [scatterAdd, List.foldl_cons, ← scatterAdd, ih]
    by_cases h : u.1 = j
    · subst h
      simp [Function.update_same, List.filter_cons]
      ring
    · simp [Function.update_noteq (Ne.symm h), List.filter_cons,
        beq_iff_eq, h]

lemma scatterAdd_map_apply {n : ℕ} (grad : List (Fin n × ℚ)) (c : ℚ)
    (f : ℚ → ℚ) (x : Fin n → ℚ) (j : Fin n) :
    scatterAdd x (grad.map (fun ig => (ig.1, c * f ig.2))) j =
      x j + c * ((grad.filter (fun u => u.1 == j)).map (fun u => f u.2)).sum := by
  rw [scatterAdd_apply, List.filter_map, List.map_map]
  congr 1
  have h1 : ((fun u : Fin n × ℚ => u.1 == j) ∘
      fun ig : Fin n × ℚ => (ig.1, c * f ig.2)) =
      fun u : Fin n × ℚ => u.1 == j := rfl
  rw [h1]
  have h2 : (Prod.snd ∘ fun ig : Fin n × ℚ => (ig.1, c * f ig.2)) =
      fun ig : Fin n × ℚ => c * f ig.2 := rfl
  rw [h2, List.sum_map_mul_left]

/-- C8: in the sparse (indexed) update, for every row `j`, the committed
first moment is `beta_1 * m j` plus `(1-beta_1)` times the sum of the
gradient values scattered at `j`, the second moment is `beta_2 * v j` plus
`(1-beta_2)` times the sum of the squared gradient values at `j`, and the
parameter is updated at every row `j` (also rows receiving no gradient)
as `p j - lr * m_t j / (sqrt (v_t j) + eps)` from the updated moments. -/
theorem adam_sparse_update (sqrt : ℚ → ℚ) (hp : AdamHP) (t : ℕ) {n : ℕ}
    (s : AdamVecState n) (grad : List (Fin n × ℚ)) (j : Fin n) :
    (applySparse sqrt hp t s grad).m j =
      hp.beta1 * s.m j +
        (1 - hp.beta1) *
          ((grad.filter (fun u => u.1 == j)).map (fun u => u.2)).sum ∧
    (applySparse sqrt hp t s grad).v j =
      hp.beta2 * s.v j +
        (1 - hp.beta2) *
          ((grad.filter (fun u => u.1 == j)).map (fun u => u.2 ^ 2)).sum ∧
    (applySparse sqrt hp t s grad).p j =
      s.p j - hp.lr * (applySparse sqrt hp t s grad).m j /
        (sqrt ((applySparse sqrt hp t s grad).v j) + hp.eps) := by
  refine ⟨?_, ?_, rfl⟩
  · exact scatterAdd_map_apply grad (1 - hp.beta1) (fun x => x)
      (fun j => hp.beta1 * s.m j) j
  · exact scatterAdd_map_apply grad (1 - hp.beta2) (fun x => x ^ 2)
      (fun j => hp.beta2 * s.v j) j

/-- C1: with the default write hook, the base optimizer's dense step commits
exactly `m' = beta_1*m + (1-beta_1)*g`, `v' = beta_2*v + (1-beta_2)*g^2` and
`p' = p - lr * m' / (sqrt v' + eps)`, for every input (hence deterministic:
the committed values are this closed form of the inputs); and no
bias-correction division is applied even though the power terms are
computed: at a concrete input the committed parameter differs from the
textbook bias-corrected value. -/
theorem adam_dense_update_no_bias_correction :
    (∀ (sqrt : ℚ → ℚ) (hp : AdamHP) (t : ℕ) (names : VarNames)
      (s : AdamState) (g : ℚ),
      applyDense sqrt hp t kUpdate names s g =
        ⟨hp.beta1 * s.m + (1 - hp.beta1) * g,
         hp.beta2 * s.v + (1 - hp.beta2) * g ^ 2,
         s.p - hp.lr * (hp.beta1 * s.m + (1 - hp.beta1) * g) /
           (sqrt (hp.beta2 * s.v + (1 - hp.beta2) * g ^ 2) + hp.eps)⟩) ∧
    (applyDense id ⟨1, 1/2, 1/2, 1⟩ 0 kUpdate names0 ⟨0, 0, 0⟩ 1).p ≠
      adamBiasCorrectedP id ⟨1, 1/2, 1/2, 1⟩ 0 0 0 0 1 := by
  constructor
  · intro sqrt hp t names s g
    rfl
  · norm_num [applyDense, adamBiasCorrectedP, kUpdate, names0]

/-- `_do_weight_decay` / `_do_layer_adaptation` (optimizers.py lines
113-117 and 172-176): loop over exclusion patterns, return `false` as soon
as `re.search(pattern, name)` matches, `true` otherwise.  The regex engine
is the external parameter `reSearch`. -/
def doExclusionCheck (reSearch : String → String → Bool)
    (excl : List String) (nm : String) : Bool :=
  !(excl.any (fun pat => reSearch pat nm))

/-- The replacement `new_update` installed by
`extend_with_weight_decay.new_optimizer.get_updates` (optimizers.py lines
102-105): if the written variable is a recorded parameter and not excluded,
the proposed value is decayed by `learning_rate * weight_decay_rate * x`
before being passed to the previously installed hook. -/
def wdHook (lr wdr : ℚ) (paramNames : List String) (dwd : String → Bool)
    (old : Hook) : Hook :=
  fun nm x newx =>
    if nm ∈ paramNames ∧ dwd nm = true then
      old nm x (newx - lr * wdr * x)
    else old nm x newx

/-- C5: a committed write to a trainable parameter matching no exclude
pattern is rewritten to `new_value - learning_rate * weight_decay_rate *
old_value`; a write to a parameter matching some exclude pattern passes
through unmodified, and a whole base-optimizer step on such a parameter is
bit-identical to the same step with `weight_decay_rate = 0` (the slot
names not being recorded parameter names). -/
theorem weight_decay_update_and_exclusion (lr wdr : ℚ)
    (reSearch : String → String → Bool) (excl : List String) :
    (∀ (paramNames : List String) (old : Hook) (nm : String) (x newx : ℚ),
      nm ∈ paramNames → doExclusionCheck reSearch excl nm = true →
      wdHook lr wdr paramNames (doExclusionCheck reSearch excl) old nm x newx =
        old nm x (newx - lr * wdr * x)) ∧
    (∀ (paramNames : List String) (old : Hook) (nm : String) (x newx : ℚ),
      doExclusionCheck reSearch excl nm = false →
      wdHook lr wdr paramNames (doExclusionCheck reSearch excl) old nm x newx =
        old nm x newx) ∧
    (∀ (sqrt : ℚ → ℚ) (hp : AdamHP) (t : ℕ) (paramNames : List String)
      (names : VarNames) (s : AdamState) (g : ℚ),
      doExclusionCheck reSearch excl names.pName = false →
      names.mName ∉ paramNames → names.vName ∉ paramNames →
      applyDense sqrt hp t
          (wdHook lr wdr paramNames (doExclusionCheck reSearch excl) kUpdate)
          names s g =
        applyDense sqrt hp t
          (wdHook lr 0 paramNames (doExclusionCheck reSearch excl) kUpdate)
          names s g) := by
  refine ⟨?_, ?_, ?_⟩
  · intro paramNames old nm x newx hmem hdwd
    simp [wdHook, hmem, hdwd]
  · intro paramNames old nm x newx hdwd
    simp [wdHook, hdwd]
  · intro sqrt hp t paramNames names s g hp0 hm hv
    simp [applyDense, wdHook, hp0, hm, hv]

/-- C5 witness: with a matcher that recognises exactly the name
`"layer/bias"`, that parameter is excluded and its write passes through,
while `"layer/kernel"` is decayed; the full-step comparison holds at a
concrete state. -/
theorem weight_decay_update_and_exclusion_witness :
    wdHook 1 (1/100) ["layer/kernel"]
        (doExclusionCheck (fun _ nm => nm == "layer/bias") ["bias"])
        kUpdate "layer/kernel" 2 3 =
      kUpdate "layer/kernel" 2 (3 - 1 * (1/100) * 2) ∧
    wdHook 1 (1/100) ["layer/bias"]
        (doExclusionCheck (fun _ nm => nm == "layer/bias") ["bias"])
        kUpdate "layer/bias" 2 3 =
      kUpdate "layer/bias" 2 3 ∧
    applyDense id ⟨1, 1/2, 1/2, 1⟩ 0
        (wdHook 1 (1/100) ["layer/bias"]
          (doExclusionCheck (fun _ nm => nm == "layer/bias") ["bias"])
          kUpdate)
        ⟨"layer/bias/m", "layer/bias/v", "layer/bias"⟩ ⟨0, 0, 5⟩ 1 =
      applyDense id ⟨1, 1/2, 1/2, 1⟩ 0
        (wdHook 1 0 ["layer/bias"]
          (doExclusionCheck (fun _ nm => nm == "layer/bias") ["bias"])
          kUpdate)
        ⟨"layer/bias/m", "layer/bias/v", "layer/bias"⟩ ⟨0, 0, 5⟩ 1 := by
  refine ⟨?_, ?_, ?_⟩
  · exact (weight_decay_update_and_exclusion 1 (1/100)
      (fun _ nm => nm == "layer/bias") ["bias"]).1 ["layer/kernel"] kUpdate
      "layer/kernel" 2 3 (by decide) (by decide)
  · exact (weight_decay_update_and_exclusion 1 (1/100)
      (fun _ nm => nm == "layer/bias") ["bias"]).2.1 ["layer/bias"] kUpdate
      "layer/bias" 2 3 (by decide)
  · exact (weight_decay_update_and_exclusion 1 (1/100)
      (fun _ nm => nm == "layer/bias") ["bias"]).2.2 id ⟨1, 1/2, 1/2, 1⟩ 0
      ["layer/bias"] ⟨"layer/bias/m", "layer/bias/v", "layer/bias"⟩ ⟨0, 0, 5⟩ 1
      (by decide) (by decide) (by decide)

/-- The control flow of
`extend_with_weight_decay.new_optimizer.get_updates` (optimizers.py lines
98-111) around the delegated call: `old_update = K.update`, `K.update =
new_update`, `updates = super().get_updates(loss, params)`, `K.update =
old_update`, `return updates`.  The delegated call `inner` receives the
currently installed hook and may raise (`Except.error`); the function
returns the delegated result together with the value of the global
`K.update` when the call exits.  There is no `try`/`finally` in the
source, so an exception propagates before the restoring assignment runs. -/
def wdGetUpdates {E A : Type} (lr wdr : ℚ) (paramNames : List String)
    (dwd : String → Bool) (kCur : Hook)
    (inner : Hook → Except E A) : Except E A × Hook :=
  match inner (wdHook lr wdr paramNames dwd kCur) with
  | Except.ok r => (Except.ok r, kCur)
  | Except.error e => (Except.error e, wdHook lr wdr paramNames dwd kCur)

/-- C3 counterexample: a delegated call that raises leaves the replacement
hook installed, not the previously installed `K.update` — the claim that
the hook is restored on every exit path, including exceptions, fails on a
concrete failing inner call. -/
theorem hook_restore_on_failure_counterexample :
    (wdGetUpdates 1 1 ["w"] (fun _ => true) kUpdate
        (fun _ => (Except.error () : Except Unit Unit))).2 ≠ kUpdate := by
  intro h
  have h2 := congrFun (congrFun (congrFun h "w") 1) 0
  simp [wdGetUpdates, wdHook, kUpdate] at h2

/-- C3 amended: the previously installed hook is restored on the
normal-return path of the transform's compute-updates call; when the
delegated call raises, the replacement hook remains installed (the source
has no scoped acquisition/release around the delegation). -/
theorem hook_restore_paths {E A : Type} (lr wdr : ℚ)
    (paramNames : List String) (dwd : String → Bool) (kCur : Hook)
    (inner : Hook → Except E A) :
    (∀ r : A, inner (wdHook lr wdr paramNames dwd kCur) = Except.ok r →
      (wdGetUpdates lr wdr paramNames dwd kCur inner).2 = kCur) ∧
    (∀ e : E, inner (wdHook lr wdr paramNames dwd kCur) = Except.error e →
      (wdGetUpdates lr wdr paramNames dwd kCur inner).2 =
        wdHook lr wdr paramNames dwd kCur) := by
  constructor
  · intro r hr
    simp [wdGetUpdates, hr]
  · intro e he
    simp [wdGetUpdates, he]

/-- C3 witness: at a concrete succeeding inner call the hook is restored,
and at a concrete failing inner call the replacement hook remains. -/
theorem hook_restore_paths_witness :
    (wdGetUpdates 1 1 ["w"] (fun _ => true) kUpdate
        (fun _ => (Except.ok 0 : Except Unit ℕ))).2 = kUpdate ∧
    (wdGetUpdates 1 1 ["w"] (fun _ => true) kUpdate
        (fun _ => (Except.error () : Except Unit ℕ))).2 =
      wdHook 1 1 ["w"] (fun _ => true) kUpdate := by
  constructor
  · exact (hook_restore_paths 1 1 ["w"] (fun _ => true) kUpdate
      (fun _ => (Except.ok 0 : Except Unit ℕ))).1 0 rfl
  · exact (hook_restore_paths 1 1 ["w"] (fun _ => true) kUpdate
      (fun _ => (Except.error () : Except Unit ℕ))).2 () rfl

/-- `K.switch(cond, a, b)`: selects `a` when the condition holds. -/
def kSwitch (c : Prop) [Decidable c] (a b : ℚ) : ℚ :=
  if c then a else b

/-- The replacement `new_update` installed by
`extend_with_layer_adaptation.new_optimizer.get_updates` (optimizers.py
lines 154-164), for a scalar parameter (`tf.norm` of a scalar is its
absolute value): `dx = new_x - x`, `x_norm = ‖x‖`, `g_norm = ‖dx / lr‖`,
`ratio = K.switch(x_norm > 0, K.switch(g_norm > K.epsilon(), x_norm /
g_norm, 1), 1)`, and `x + dx * ratio` is passed to the previous hook.
`epsK` is the framework fuzz factor `K.epsilon()`. -/
def laHook (lr epsK : ℚ) (paramNames : List String) (dla : String → Bool)
    (old : Hook) : Hook :=
  fun nm x newx =>
    if nm ∈ paramNames ∧ dla nm = true then
      let dx := newx - x
      let x_norm := |x|
      let g_norm := |dx / lr|
      let ratio := kSwitch (x_norm > 0) (kSwitch (g_norm > epsK)
        (x_norm / g_norm) 1) 1
      old nm x (x + dx * ratio)
    else old nm x newx

/-- C6: for a non-excluded recorded parameter, the layer-adaptation hook
commits `old_value + dx * ratio` with `dx = new_value - old_value` and
`ratio = x_norm / g_norm` exactly when `x_norm > 0` and `g_norm > epsK`
(`x_norm = ‖old_value‖`, `g_norm = ‖dx / lr‖`), and `ratio = 1` otherwise;
in the degenerate cases the step is committed unscaled, i.e. the proposed
value passes through unchanged. -/
theorem layer_adaptation_ratio (lr epsK : ℚ) (paramNames : List String)
    (dla : String → Bool) (old : Hook) (nm : String) (x newx : ℚ) :
    (nm ∈ paramNames → dla nm = true →
      laHook lr epsK paramNames dla old nm x newx =
        old nm x (x + (newx - x) *
          (if 0 < |x| ∧ epsK < |(newx - x) / lr| then
            |x| / |(newx - x) / lr| else 1))) ∧
    (nm ∈ paramNames → dla nm = true →
      ¬(0 < |x| ∧ epsK < |(newx - x) / lr|) →
      laHook lr epsK paramNames dla old nm x newx = old nm x newx) := by
  constructor
  · intro hmem hdla
    simp only [laHook, kSwitch, if_pos (And.intro hmem hdla)]
    by_cases hx : 0 < |x|
    · by_cases hg : epsK < |(newx - x) / lr|
      · rw [if_pos hx, if_pos hg, if_pos (And.intro hx hg)]
      · rw [if_pos hx, if_neg hg, if_neg (fun hc => hg hc.2)]
    · rw [if_neg hx, if_neg (fun hc => hx hc.1)]
  · intro hmem hdla hdeg
    simp only [laHook, kSwitch, if_pos (And.intro hmem hdla)]
    have hone : (if 0 < |x| then
        (if epsK < |(newx - x) / lr| then |x| / |(newx - x) / lr| else 1)
        else 1) = 1 := by
      by_cases hx : 0 < |x|
      · by_cases hg : epsK < |(newx - x) / lr|
        · exact absurd (And.intro hx hg) hdeg
        · rw [if_pos hx, if_neg hg]
      · rw [if_neg hx]
    rw [hone]
    ring_nf

/-- C6 witness: at `x = 0` (so `x_norm = 0`, a degenerate case) the step is
committed unscaled, and at a non-degenerate concrete input the committed
value carries the ratio. -/
theorem layer_adaptation_ratio_witness :
    laHook 1 (1/100) ["w"] (fun _ => true) kUpdate "w" 0 3 =
      kUpdate "w" 0 3 ∧
    laHook 1 (1/100) ["w"] (fun _ => true) kUpdate "w" 2 3 =
      kUpdate "w" 2 (2 + (3 - 2) *
        (if 0 < |(2:ℚ)| ∧ (1/100 : ℚ) < |((3:ℚ) - 2) / 1| then
          |(2:ℚ)| / |((3:ℚ) - 2) / 1| else 1)) := by
  constructor
  · exact (layer_adaptation_ratio 1 (1/100) ["w"] (fun _ => true) kUpdate
      "w" 0 3).2 (by decide) rfl (by norm_num)
  · exact (layer_adaptation_ratio 1 (1/100) ["w"] (fun _ => true) kUpdate
      "w" 2 3).1 (by decide) rfl

/-- Modelled from the spec: `piecewise_linear(t, schedule)` is imported
from `bert4keras.backend`, which is not part of the sources at hand; §4.5
describes it as linear interpolation between consecutive (step, multiplier)
breakpoints with ascending keys, starting implicitly at multiplier 0 at
step 0 and holding the last multiplier constant beyond the final
breakpoint.  `interpolateFrom` walks the breakpoints carrying the previous
breakpoint. -/
def interpolateFrom (t : ℚ) : ℕ × ℚ → List (ℕ × ℚ) → ℚ
  | prev, [] => prev.2
  | prev, next :: rest =>
      if t ≤ (next.1 : ℚ) then
        prev.2 + (next.2 - prev.2) * (t - (prev.1 : ℚ)) /
          ((next.1 : ℚ) - (prev.1 : ℚ))
      else interpolateFrom t next rest

/-- Modelled from the spec: the schedule multiplier as a pure function of
`iterations`, with the implicit starting breakpoint (0, 0). -/
def piecewiseLinear (t : ℕ) (schedule : List (ℕ × ℚ)) : ℚ :=
  interpolateFrom (t : ℚ) (0, 0) schedule

/-- The replacement `new_update` installed by
`extend_with_piecewise_linear_lr.new_optimizer.get_updates` (optimizers.py
lines 212-215): for every recorded parameter, with no exclusions, the
proposed value is rescaled to `x + (new_x - x) * lr_multiplier`, where
`lr_multiplier = piecewise_linear(self.iterations, self.lr_schedule)`. -/
def plHook (mult : ℚ) (paramNames : List String) (old : Hook) : Hook :=
  fun nm x newx =>
    if nm ∈ paramNames then old nm x (x + (newx - x) * mult)
    else old nm x newx

/-- The schedule `{1000: 1.0, 2000: 0.1}` named by the claim. -/
def schedule2 : List (ℕ × ℚ) := [(1000, 1), (2000, 1/10)]

/-- C7: every committed write to a recorded trainable parameter is
rewritten to `old_value + (new_value - old_value) * multiplier`, the
multiplier being the pure function `piecewiseLinear` of `iterations`; for
the schedule `{1000: 1.0, 2000: 0.1}` the multiplier is 0 at step 0, 1/2
at step 500, 1 at step 1000, 11/20 (= 0.55) at step 1500, 1/10 at step
2000 and 1/10 at step 3000. -/
theorem piecewise_linear_multiplier :
    (∀ (t : ℕ) (schedule : List (ℕ × ℚ)) (paramNames : List String)
      (old : Hook) (nm : String) (x newx : ℚ), nm ∈ paramNames →
      plHook (piecewiseLinear t schedule) paramNames old nm x newx =
        old nm x (x + (newx - x) * piecewiseLinear t schedule)) ∧
    piecewiseLinear 0 schedule2 = 0 ∧
    piecewiseLinear 500 schedule2 = 1/2 ∧
    piecewiseLinear 1000 schedule2 = 1 ∧
    piecewiseLinear 1500 schedule2 = 11/20 ∧
    piecewiseLinear 2000 schedule2 = 1/10 ∧
    piecewiseLinear 3000 schedule2 = 1/10 := by
  refine ⟨?_, ?_, ?_, ?_, ?_, ?_, ?_⟩
  · intro t schedule paramNames old nm x newx hmem
    simp [plHook, hmem]
  all_goals norm_num [piecewiseLinear, schedule2, interpolateFrom]

/-- C7 witness: the hook equation at a concrete recorded parameter and
step. -/
theorem piecewise_linear_multiplier_witness :
    plHook (piecewiseLinear 500 schedule2) ["w"] kUpdate "w" 2 4 =
      kUpdate "w" 2 (2 + (4 - 2) * piecewiseLinear 500 schedule2) :=
  piecewise_linear_multiplier.1 500 schedule2 ["w"] kUpdate "w" 2 4
    (by decide)

/-- State of one parameter under the gradient-accumulation transform: the
base optimizer's `m`, `v`, `p` plus the accumulator slot `ag`
(zero-initialized). -/
structure GAState where
  m : ℚ
  v : ℚ
  p : ℚ
  ag : ℚ
deriving DecidableEq

/-- One training step of
`extend_with_gradient_accumulation_v2.new_optimizer._resource_apply_op`
(optimizers.py lines 323-350) wrapped around the dense Adam apply.  `t` is
`self.iterations` during the step (tf.keras increments it after the apply
ops); `cond = (iterations % steps_per_update == 0)`; the replacement
`new_update` forces every gated write back to the old value when `cond` is
false; the gradient fed to the wrapped optimizer is the slot read `ag /
steps_per_update` (`get_gradients` after its first call), while `g` is the
instantaneous gradient, accumulated afterwards by `K.update(ag,
K.switch(cond, g_t, ag + g_t))`. -/
def gradAccumStep (sqrt : ℚ → ℚ) (hp : AdamHP) (N : ℕ) (names : VarNames)
    (agName : String) (t : ℕ) (s : GAState) (g : ℚ) : GAState :=
  let newUpdate : Hook := fun nm x newx => kUpdate nm x (kSwitch (t % N = 0) newx x)
  let grad := s.ag / (N : ℚ)
  let s1 := applyDense sqrt hp t newUpdate names ⟨s.m, s.v, s.p⟩ grad
  let ag_t := kUpdate agName s.ag (kSwitch (t % N = 0) g (s.ag + g))
  ⟨s1.m, s1.v, s1.p, ag_t⟩

/-- Consecutive steps of the gradient-accumulation-wrapped optimizer, one
instantaneous gradient per step, `iterations` advancing by one each step. -/
def gradAccumRun (sqrt : ℚ → ℚ) (hp : AdamHP) (N : ℕ) (names : VarNames)
    (agName : String) : ℕ → GAState → List ℚ → GAState
  | _, s, [] => s
  | t, s, g :: gs =>
      gradAccumRun sqrt hp N names agName (t + 1)
        (gradAccumStep sqrt hp N names agName t s g) gs

lemma gradAccumStep_skip (sqrt : ℚ → ℚ) (hp : AdamHP) (N : ℕ)
    (names : VarNames) (agName : String) (t : ℕ) (s : GAState) (g : ℚ)
    (h : t % N ≠ 0) :
    gradAccumStep sqrt hp N names agName t s g =
      ⟨s.m, s.v, s.p, s.ag + g⟩ := by
  simp [gradAccumStep, applyDense, kUpdate, kSwitch, h]

lemma gradAccumStep_commit (sqrt : ℚ → ℚ) (hp : AdamHP) (N : ℕ)
    (names : VarNames) (agName : String) (t : ℕ) (s : GAState) (g : ℚ)
    (h : t % N = 0) :
    gradAccumStep sqrt hp N names agName t s g =
      ⟨(applyDense sqrt hp t kUpdate names ⟨s.m, s.v, s.p⟩ (s.ag / (N : ℚ))).m,
       (applyDense sqrt hp t kUpdate names ⟨s.m, s.v, s.p⟩ (s.ag / (N : ℚ))).v,
       (applyDense sqrt hp t kUpdate names ⟨s.m, s.v, s.p⟩ (s.ag / (N : ℚ))).p,
       g⟩ := by
  have hku : (fun nm x newx => kUpdate nm x (kSwitch (t % N = 0) newx x)) =
      kUpdate := by
    funext nm x newx
    simp [kUpdate, kSwitch, h]
  have hag : kUpdate agName s.ag (kSwitch (t % N = 0) g (s.ag + g)) = g := by
    simp [kUpdate, kSwitch, h]
  simp only [gradAccumStep, hku, hag]

lemma gradAccumRun_accumulate (sqrt : ℚ → ℚ) (hp : AdamHP) (N : ℕ)
    (names : VarNames) (agName : String) (gs : List ℚ) :
    ∀ (t : ℕ) (s : GAState), 0 < t → t + gs.length ≤ N →
      gradAccumRun sqrt hp N names agName t s gs =
        ⟨s.m, s.v, s.p, s.ag + gs.sum⟩ := by
  induction gs with
  | nil => intro t s _ _; simp [gradAccumRun]
  | cons g gs ih =>
    intro t s ht hlen
    have htN : t < N := by
      have : t + 1 ≤ t + (g :: gs).length := by simp
      omega
    have hmod : t % N ≠ 0 := by
      rw [Nat.mod_eq_of_lt htN]
      omega
    rw [gradAccumRun, gradAccumStep_skip sqrt hp N names agName t s g hmod,
      ih (t + 1) _ (by omega) (by simp at hlen ⊢; omega)]
    simp [List.sum_cons]
    ring

lemma gradAccumRun_append_single (sqrt : ℚ → ℚ) (hp : AdamHP) (N : ℕ)
    (names : VarNames) (agName : String) (gs : List ℚ) (g : ℚ) :
    ∀ (t : ℕ) (s : GAState),
      gradAccumRun sqrt hp N names agName t s (gs ++ [g]) =
        gradAccumStep sqrt hp N names agName (t + gs.length)
          (gradAccumRun sqrt hp N names agName t s gs) g := by
  induction gs with
  | nil => intro t s; simp [gradAccumRun]
  | cons gh gs ih =>
    intro t s
    rw [List.cons_append, gradAccumRun, ih, gradAccumRun]
    congr 1
    simp
    omega

/-- C2 counterexample: with `steps_per_update = 2`, learning rate 1,
`beta_1 = beta_2 = 1/2`, `epsilon = 1`, `sqrt` modelled as the identity,
and a fresh optimizer (`m = v = ag = 0`, `iterations = 0`, parameter 0),
running 2 consecutive steps with gradients `[1, 1]` leaves the parameter
at 0, which differs from the claim's mandated result of running the
wrapped base optimizer once with the averaged gradient `(1+1)/2` (which
commits `-1/3`): the real update committed inside the window (at
`iterations = 0`) uses the previous accumulator contents (zero), not the
window's average. -/
theorem gradient_accumulation_claim_counterexample :
    (gradAccumRun id ⟨1, 1/2, 1/2, 1⟩ 2 names0 "accum_grad_0" 0
        ⟨0, 0, 0, 0⟩ [1, 1]).p ≠
      (applyDense id ⟨1, 1/2, 1/2, 1⟩ 0 kUpdate names0 ⟨0, 0, 0⟩
        ((1 + 1) / 2)).p := by
  norm_num [gradAccumRun, gradAccumStep, applyDense, kUpdate, kSwitch,
    names0]

/-- C2 amended: with `steps_per_update = N > 0` and a fresh optimizer
state (zero moments and accumulator, `iterations = 0`), the N steps with
gradients `g_1..g_N` leave the parameter and moments unchanged — the
cond-true step among them (the first) commits a real update computed from
the stale averaged gradient `0/N` — while the accumulator collects
`g_1+…+g_N`; the single real update equal to the wrapped base optimizer
run once with the averaged gradient `(g_1+…+g_N)/N` is committed one step
later, on step N+1. -/
theorem gradient_accumulation_window_lag (sqrt : ℚ → ℚ) (hp : AdamHP)
    (N : ℕ) (names : VarNames) (agName : String) (p0 : ℚ) (gs : List ℚ)
    (gnext : ℚ) (hN : 0 < N) (hlen : gs.length = N) :
    gradAccumRun sqrt hp N names agName 0 ⟨0, 0, p0, 0⟩ gs =
      ⟨0, 0, p0, gs.sum⟩ ∧
    gradAccumRun sqrt hp N names agName 0 ⟨0, 0, p0, 0⟩ (gs ++ [gnext]) =
      ⟨(applyDense sqrt hp N kUpdate names ⟨0, 0, p0⟩ (gs.sum / (N : ℚ))).m,
       (applyDense sqrt hp N kUpdate names ⟨0, 0, p0⟩ (gs.sum / (N : ℚ))).v,
       (applyDense sqrt hp N kUpdate names ⟨0, 0, p0⟩ (gs.sum / (N : ℚ))).p,
       gnext⟩ := by
  have hfresh : gradAccumStep sqrt hp N names agName 0 ⟨0, 0, p0, 0⟩
      (gs.headI) = ⟨0, 0, p0, gs.headI⟩ := by
    rw [gradAccumStep_commit sqrt hp N names agName 0 ⟨0, 0, p0, 0⟩
      gs.headI (Nat.zero_mod N)]
    simp [applyDense, kUpdate]
  have hrun : gradAccumRun sqrt hp N names agName 0 ⟨0, 0, p0, 0⟩ gs =
      ⟨0, 0, p0, gs.sum⟩ := by
    cases gs with
    | nil => simp at hlen; omega
    | cons g1 rest =>
      rw [gradAccumRun]
      have h1 : gradAccumStep sqrt hp N names agName 0 ⟨0, 0, p0, 0⟩ g1 =
          ⟨0, 0, p0, g1⟩ := by
        simpa using hfresh
      rw [h1, gradAccumRun_accumulate sqrt hp N names agName rest 1
        ⟨0, 0, p0, g1⟩ (by omega) (by simp at hlen ⊢; omega)]
      simp [List.sum_cons]
  refine ⟨hrun, ?_⟩
  rw [gradAccumRun_append_single, hrun, hlen, Nat.zero_add,
    gradAccumStep_commit sqrt hp N names agName N ⟨0, 0, p0, gs.sum⟩ gnext
      (Nat.mod_self N)]

/-- C2 amended witness: at `N = 2`, gradients `[1, 1]` and a third step
gradient 7, from the fresh state the first two steps leave the parameter
at its initial value 5 while the accumulator reaches 2, and the third step
commits the base update with averaged gradient `2/2`. -/
theorem gradient_accumulation_window_lag_witness :
    gradAccumRun id ⟨1, 1/2, 1/2, 1⟩ 2 names0 "accum_grad_0" 0
        ⟨0, 0, 5, 0⟩ [1, 1] = ⟨0, 0, 5, List.sum [1, 1]⟩ ∧
    gradAccumRun id ⟨1, 1/2, 1/2, 1⟩ 2 names0 "accum_grad_0" 0
        ⟨0, 0, 5, 0⟩ ([1, 1] ++ [7]) =
      ⟨(applyDense id ⟨1, 1/2, 1/2, 1⟩ 2 kUpdate names0 ⟨0, 0, 5⟩
          (List.sum [1, 1] / (2 : ℚ))).m,
       (applyDense id ⟨1, 1/2, 1/2, 1⟩ 2 kUpdate names0 ⟨0, 0, 5⟩
          (List.sum [1, 1] / (2 : ℚ))).v,
       (applyDense id ⟨1, 1/2, 1/2, 1⟩ 2 kUpdate names0 ⟨0, 0, 5⟩
          (List.sum [1, 1] / (2 : ℚ))).p,
       7⟩ :=
  gradient_accumulation_window_lag id ⟨1, 1/2, 1/2, 1⟩ 2 names0
    "accum_grad_0" 5 [1, 1] 7 (by decide) (by decide)

/-- C10: on a step where `iterations mod steps_per_update ≠ 0`, the
replacement hook installed by the gradient-accumulation transform gates
every write made inside the delegated call — including the moment slots
`m` and `v`, whose names it never inspects — back to the old value, so
`m`, `v` and the parameter are all unchanged, while the (ungated)
accumulator write still adds the instantaneous gradient. -/
theorem gradient_accumulation_gates_all_writes (sqrt : ℚ → ℚ)
    (hp : AdamHP) (N : ℕ) (names : VarNames) (agName : String) (t : ℕ)
    (s : GAState) (g : ℚ) (h : t % N ≠ 0) :
    (gradAccumStep sqrt hp N names agName t s g).m = s.m ∧
    (gradAccumStep sqrt hp N names agName t s g).v = s.v ∧
    (gradAccumStep sqrt hp N names agName t s g).p = s.p ∧
    (gradAccumStep sqrt hp N names agName t s g).ag = s.ag + g := by
  rw [gradAccumStep_skip sqrt hp N names agName t s g h]
  exact ⟨rfl, rfl, rfl, rfl⟩

/-- C10 witness: a concrete skipped step (`iterations = 1`, `N = 2`)
leaves `m`, `v`, `p` unchanged and accumulates the gradient. -/
theorem gradient_accumulation_gates_all_writes_witness :
    (gradAccumStep id ⟨1, 1/2, 1/2, 1⟩ 2 names0 "accum_grad_0" 1
        ⟨2, 3, 5, 7⟩ 11).m = 2 ∧
    (gradAccumStep id ⟨1, 1/2, 1/2, 1⟩ 2 names0 "accum_grad_0" 1
        ⟨2, 3, 5, 7⟩ 11).v = 3 ∧
    (gradAccumStep id ⟨1, 1/2, 1/2, 1⟩ 2 names0 "accum_grad_0" 1
        ⟨2, 3, 5, 7⟩ 11).p = 5 ∧
    (gradAccumStep id ⟨1, 1/2, 1/2, 1⟩ 2 names0 "accum_grad_0" 1
        ⟨2, 3, 5, 7⟩ 11).ag = 7 + 11 :=
  gradient_accumulation_gates_all_writes id ⟨1, 1/2, 1/2, 1⟩ 2 names0
    "accum_grad_0" 1 ⟨2, 3, 5, 7⟩ 11 (by decide)

/-- One training step of `extend_with_lookahead.new_optimizer.get_updates`
(optimizers.py lines 382-404) for one parameter: the wrapped optimizer's
updates run first (`fast1 = base fast g`), then, under
`cond = iterations % k == 0`, the zero-initialized slow buffer is blended
`K.update(q, K.switch(cond, q + alpha * (p - q), q))` and the parameter is
copied back `K.update(p, K.switch(cond, q, p))`, the copy reading the
committed slow value.  `base` abstracts the wrapped optimizer's parameter
update. -/
def lookaheadClassicStep (k : ℕ) (alpha : ℚ) (base : ℚ → ℚ → ℚ)
    (t : ℕ) (fast slow g : ℚ) : ℚ × ℚ :=
  let fast1 := base fast g
  let slow1 := kUpdate "slow_var_0" slow
    (kSwitch (t % k = 0) (slow + alpha * (fast1 - slow)) slow)
  let fast2 := kUpdate "p" fast1 (kSwitch (t % k = 0) slow1 fast1)
  (fast2, slow1)

/-- One training step of
`extend_with_lookahead_v2.new_optimizer._resource_apply_op` (optimizers.py
lines 444-458) for one parameter: `op` (the wrapped apply) runs first,
`slow_var_t = slow_var + alpha * (var - slow_var)` reads the post-update
parameter, then `K.update(slow_var, K.switch(cond, slow_var_t, slow_var))`
and `K.update(var, K.switch(cond, slow_var, var))`, the copy reading the
committed slow slot (zero-initialized, like the classic buffer). -/
def lookaheadV2Step (k : ℕ) (alpha : ℚ) (base : ℚ → ℚ → ℚ)
    (t : ℕ) (fast slow g : ℚ) : ℚ × ℚ :=
  let fast1 := base fast g
  let slow_var_t := slow + alpha * (fast1 - slow)
  let slow_update := kUpdate "slow_var" slow
    (kSwitch (t % k = 0) slow_var_t slow)
  let copy_update := kUpdate "p" fast1 (kSwitch (t % k = 0) slow_update fast1)
  (copy_update, slow_update)

/-- The per-step committed (fast, slow) values of the classic lookahead
variant over a gradient sequence. -/
def lookaheadClassicRun (k : ℕ) (alpha : ℚ) (base : ℚ → ℚ → ℚ) :
    ℕ → ℚ × ℚ → List ℚ → List (ℚ × ℚ)
  | _, _, [] => []
  | t, fs, g :: gs =>
      let fs1 := lookaheadClassicStep k alpha base t fs.1 fs.2 g
      fs1 :: lookaheadClassicRun k alpha base (t + 1) fs1 gs

/-- The per-step committed (fast, slow) values of the slot-based lookahead
variant over a gradient sequence. -/
def lookaheadV2Run (k : ℕ) (alpha : ℚ) (base : ℚ → ℚ → ℚ) :
    ℕ → ℚ × ℚ → List ℚ → List (ℚ × ℚ)
  | _, _, [] => []
  | t, fs, g :: gs =>
      let fs1 := lookaheadV2Step k alpha base t fs.1 fs.2 g
      fs1 :: lookaheadV2Run k alpha base (t + 1) fs1 gs

/-- C4: on a step with `iterations mod k = 0`, the committed values are
`slow' = slow + alpha * (fast1 - slow)` followed by `fast' = slow'`, where
`fast1 = base fast g` is the wrapped optimizer's update, applied first and
unconditionally; on a step with `iterations mod k ≠ 0` the transform
leaves the slow value and the post-base-update fast value unchanged. -/
theorem lookahead_step_characterization (k : ℕ) (alpha : ℚ)
    (base : ℚ → ℚ → ℚ) (t : ℕ) (fast slow g : ℚ) :
    (t % k = 0 → lookaheadV2Step k alpha base t fast slow g =
      (slow + alpha * (base fast g - slow),
       slow + alpha * (base fast g - slow))) ∧
    (t % k ≠ 0 → lookaheadV2Step k alpha base t fast slow g =
      (base fast g, slow)) := by
  constructor
  · intro h
    simp [lookaheadV2Step, kUpdate, kSwitch, h]
  · intro h
    simp [lookaheadV2Step, kUpdate, kSwitch, h]

/-- A concrete base update (plain gradient descent) for witnesses. -/
def baseSGD (lr : ℚ) : ℚ → ℚ → ℚ := fun p g => p - lr * g

/-- C4 witness: with `k = 5`, `alpha = 1/2`, at `iterations = 10` the step
blends and copies back; at `iterations = 11` it passes the base update
through. -/
theorem lookahead_step_characterization_witness :
    lookaheadV2Step 5 (1/2) (baseSGD 1) 10 4 2 1 =
      (2 + 1/2 * (baseSGD 1 4 1 - 2), 2 + 1/2 * (baseSGD 1 4 1 - 2)) ∧
    lookaheadV2Step 5 (1/2) (baseSGD 1) 11 4 2 1 = (baseSGD 1 4 1, 2) :=
  ⟨(lookahead_step_characterization 5 (1/2) (baseSGD 1) 10 4 2 1).1
      (by decide),
   (lookahead_step_characterization 5 (1/2) (baseSGD 1) 11 4 2 1).2
      (by decide)⟩

lemma lookahead_steps_agree (k : ℕ) (alpha : ℚ) (base : ℚ → ℚ → ℚ)
    (t : ℕ) (fast slow g : ℚ) :
    lookaheadClassicStep k alpha base t fast slow g =
      lookaheadV2Step k alpha base t fast slow g := rfl

/-- C9: the classic (zero-initialized position-keyed buffer) and
slot-based (zero-initialized named slot) lookahead variants are externally
equivalent: for every wrapped base update, hyperparameters `k`, `alpha`,
initial parameter value and gradient sequence, the committed (fast, slow)
values agree on every step. -/
theorem lookahead_variants_equivalent (k : ℕ) (alpha : ℚ)
    (base : ℚ → ℚ → ℚ) (p0 : ℚ) (gs : List ℚ) :
    lookaheadClassicRun k alpha base 0 (p0, 0) gs =
      lookaheadV2Run k alpha base 0 (p0, 0) gs := by
  suffices h : ∀ (t : ℕ) (fs : ℚ × ℚ),
      lookaheadClassicRun k alpha base t fs gs =
        lookaheadV2Run k alpha base t fs gs from h 0 (p0, 0)
  induction gs with
  | nil => intro t fs; rfl
  | cons g gs ih =>
    intro t fs
    rw [lookaheadClassicRun, lookaheadV2Run, lookahead_steps_agree, ih]
